import Mathlib

/-!
Verification of the swf-headers crate: a shallow embedding of
`src/bit_range.rs`, `src/error.rs`, `src/decoded_swf.rs` and `src/lib.rs`.

Machine integers are modelled as `Nat` (`read_u8` reduces modulo 256 as the
source reads a `u8`).  A byte source (`File` / `DecodedSwf`) is a list of
events: either a byte or an underlying I/O failure, matching the `io::Result`
contract of `Read`.  Fallible code returns an `Outcome`, whose `panicked`
constructor models a Rust `assert` failure or an explicit abort.
-/

/-- One event of a byte source: a successfully delivered byte, or an
underlying I/O failure reported by the raw source or a decoder. -/
inductive SrcByte where
  | good : Nat → SrcByte
  | bad : SrcByte
deriving DecidableEq

/-- A byte source is the (finite) sequence of events it will deliver;
running out of events models end of data. -/
abbrev ByteStream := List SrcByte

/-- The error enum of `src/error.rs`: `IoError` wraps any underlying I/O
failure, `NotSwf` is the catch-all format-mismatch variant. -/
inductive Error where
  | IoError : Error
  | NotSwf : Error
deriving DecidableEq

/-- Result of running a fallible piece of the parser: a value, a returned
`Err`, or a panic (assertion failure / explicit `panic`). -/
inductive Outcome (α : Type) where
  | ok : α → Outcome α
  | err : Error → Outcome α
  | panicked : Outcome α
deriving DecidableEq

/-- The `Signature` enum of `src/lib.rs`. -/
inductive Signature where
  | Uncompressed : Signature
  | ZlibCompressed : Signature
  | LzmaCompressed : Signature
deriving DecidableEq

/-- The `SwfHeaders` struct of `src/lib.rs`; the field projections are the
accessors `signature()`, `version()`, `file_length()`, `frame_rate()` and
`frame_count()`. -/
structure SwfHeaders where
  signature : Signature
  version : Nat
  file_length : Nat
  width : Nat
  height : Nat
  frame_rate : Nat
  frame_count : Nat
deriving DecidableEq

/-- Accessor `dimensions_twips()` of `src/lib.rs` line 169. -/
def SwfHeaders.dimensions_twips (h : SwfHeaders) : Nat × Nat :=
  (h.width, h.height)

/-- Accessor `dimensions()` of `src/lib.rs` line 173: twips divided by 20,
integer truncation. -/
def SwfHeaders.dimensions (h : SwfHeaders) : Nat × Nat :=
  (h.width / 20, h.height / 20)

/-- `read_u8` from the byteorder crate as used by the source: one byte, or
`UnexpectedEOF` (folded into `NotSwf` by `From` in `src/error.rs`), or an
I/O failure (folded into `IoError`). -/
def read_u8 : ByteStream → Outcome (Nat × ByteStream)
  | [] => .err .NotSwf
  | .good b :: rest => .ok (b % 256, rest)
  | .bad :: _ => .err .IoError

/-- `read_u16::<LittleEndian>`: two bytes, low byte first. -/
def read_u16_le (s : ByteStream) : Outcome (Nat × ByteStream) :=
  match read_u8 s with
  | .err e => .err e
  | .panicked => .panicked
  | .ok (lo, s1) =>
    match read_u8 s1 with
    | .err e => .err e
    | .panicked => .panicked
    | .ok (hi, s2) => .ok (lo + 256 * hi, s2)

/-- `read_u32::<LittleEndian>`: four bytes, least significant first. -/
def read_u32_le (s : ByteStream) : Outcome (Nat × ByteStream) :=
  match read_u8 s with
  | .err e => .err e
  | .panicked => .panicked
  | .ok (b0, s1) =>
    match read_u8 s1 with
    | .err e => .err e
    | .panicked => .panicked
    | .ok (b1, s2) =>
      match read_u8 s2 with
      | .err e => .err e
      | .panicked => .panicked
      | .ok (b2, s3) =>
        match read_u8 s3 with
        | .err e => .err e
        | .panicked => .panicked
        | .ok (b3, s4) =>
          .ok (b0 + 256 * b1 + 65536 * b2 + 16777216 * b3, s4)

/-- `get_x_bit` of `src/bit_range.rs` line 39 (the value it computes):
`(bytes[bit/8] >> 7 - bit%8) & 1`. -/
def get_x_bit (bytes : List Nat) (bit : Nat) : Nat :=
  ((bytes.getD (bit / 8) 0) >>> (7 - bit % 8)) &&& 1

/-- The accumulation loop of `get_bit_range` (`src/bit_range.rs` lines
31-35): for each offset `j` below `length`, OR in bit `start_bit + j`
shifted left by `length - (j+1)`. -/
def bit_loop (bytes : List Nat) (start_bit length : Nat) : Nat :=
  (List.range length).foldl
    (fun result j => result ||| (get_x_bit bytes (start_bit + j) <<< (length - (j + 1)))) 0

/-- The conjunction of every `assert` evaluated during a `get_bit_range`
call: the two top-level asserts of lines 28-29, the absence of `u32`
underflow in `end_bit - start_bit`, and the per-access assert of
`get_x_bit` (line 40) for every bit in the range. -/
def bit_asserts (bytes : List Nat) (start_bit end_bit : Nat) : Bool :=
  decide (end_bit / 8 ≤ bytes.length) &&
  decide (end_bit - start_bit < 32) &&
  decide (start_bit ≤ end_bit) &&
  (List.range (end_bit - start_bit)).all
    (fun j => decide ((start_bit + j) / 8 < bytes.length))

/-- `get_bit_range` of `src/bit_range.rs`: `none` models a panic from one of
the assertions, `some` the returned `u32` (all shifts are below 32, so the
`Nat` value coincides with the `u32` value). -/
def get_bit_range (bytes : List Nat) (start_bit end_bit : Nat) : Option Nat :=
  if bit_asserts bytes start_bit end_bit then
    some (bit_loop bytes start_bit (end_bit - start_bit))
  else none

/-- The byte-count computation of `src/lib.rs` line 189:
`(5 + nbits * 4) / 8`, floor division. -/
def rect_nbytes (nbits : Nat) : Nat := (5 + nbits * 4) / 8

/-- The byte-reading loop of `parse_rect` (`src/lib.rs` lines 194-196):
read `n` further bytes in order. -/
def read_bytes (s : ByteStream) : Nat → Outcome (List Nat × ByteStream)
  | 0 => .ok ([], s)
  | n + 1 =>
    match read_u8 s with
    | .err e => .err e
    | .panicked => .panicked
    | .ok (b, s1) =>
      match read_bytes s1 n with
      | .err e => .err e
      | .panicked => .panicked
      | .ok (bs, s2) => .ok (b :: bs, s2)

/-- `parse_rect` of `src/lib.rs` lines 186-202: read the first byte, take
`nbits` from its top five bits after the leading bit, read
`(5 + nbits*4)/8` further bytes, and extract the second and fourth
`nbits`-wide fields as width and height. -/
def parse_rect (file : ByteStream) : Outcome ((Nat × Nat) × ByteStream) :=
  match read_u8 file with
  | .err e => .err e
  | .panicked => .panicked
  | .ok (first_byte, s1) =>
    let nbits := (first_byte >>> 3) &&& 31
    let nbytes := rect_nbytes nbits
    match read_bytes s1 nbytes with
    | .err e => .err e
    | .panicked => .panicked
    | .ok (rest_bytes, s2) =>
      let bytes := first_byte :: rest_bytes
      match get_bit_range bytes (5 + nbits) (5 + nbits * 2) with
      | none => .panicked
      | some width =>
        match get_bit_range bytes (5 + nbits * 3) (5 + nbits * 4) with
        | none => .panicked
        | some height => .ok ((width, height), s2)

/-- The signature dispatch of `src/lib.rs` lines 110-115: byte 70 is `'F'`,
67 is `'C'`, 90 is `'Z'`; anything else is invalid. -/
def sig_of_byte (b : Nat) : Option Signature :=
  if b = 70 then some .Uncompressed
  else if b = 67 then some .ZlibCompressed
  else if b = 90 then some .LzmaCompressed
  else none

/-- The field-extraction phase of `read_from` (`src/lib.rs` lines 132-155),
operating on the decoded stream: stage-bounds record, frame-rate bytes
(panic on a nonzero low byte, line 140), frame count, then the assembled
struct. -/
def read_fields (sig : Signature) (version file_length : Nat) (decoded : ByteStream) :
    Outcome (SwfHeaders × ByteStream) :=
  match parse_rect decoded with
  | .err e => .err e
  | .panicked => .panicked
  | .ok ((width, height), d1) =>
    match read_u8 d1 with
    | .err e => .err e
    | .panicked => .panicked
    | .ok (frame_rate_lower, d2) =>
      match read_u8 d2 with
      | .err e => .err e
      | .panicked => .panicked
      | .ok (frame_rate_upper, d3) =>
        if frame_rate_lower ≠ 0 then .panicked
        else
          match read_u16_le d3 with
          | .err e => .err e
          | .panicked => .panicked
          | .ok (frame_count, d4) =>
            .ok ({ signature := sig, version := version, file_length := file_length,
                   width := width, height := height,
                   frame_rate := frame_rate_upper, frame_count := frame_count }, d4)

/-- The tail of `read_from` after signature and magic validation
(`src/lib.rs` lines 123-155): version byte, little-endian file length,
stream decompression (abstracted as a parameter `decomp`), then the field
extraction phase. -/
def read_after_magic (decomp : Signature → ByteStream → Outcome ByteStream)
    (sig : Signature) (s : ByteStream) : Outcome (SwfHeaders × ByteStream) :=
  match read_u8 s with
  | .err e => .err e
  | .panicked => .panicked
  | .ok (version, s1) =>
    match read_u32_le s1 with
    | .err e => .err e
    | .panicked => .panicked
    | .ok (file_length, s2) =>
      match decomp sig s2 with
      | .err e => .err e
      | .panicked => .panicked
      | .ok decoded => read_fields sig version file_length decoded

/-- `SwfHeaders::read_from` of `src/lib.rs` lines 96-155, parameterised by
the decompression step: signature byte, the two magic bytes 0x57 0x53, then
the rest of the pipeline. -/
def read_from_decomp (decomp : Signature → ByteStream → Outcome ByteStream)
    (file : ByteStream) : Outcome (SwfHeaders × ByteStream) :=
  match read_u8 file with
  | .err e => .err e
  | .panicked => .panicked
  | .ok (b, s1) =>
    match sig_of_byte b with
    | none => .err .NotSwf
    | some sig =>
      match read_u8 s1 with
      | .err e => .err e
      | .panicked => .panicked
      | .ok (m1, s2) =>
        match read_u8 s2 with
        | .err e => .err e
        | .panicked => .panicked
        | .ok (m2, s3) =>
          if m1 = 87 ∧ m2 = 83 then read_after_magic decomp sig s3
          else .err .NotSwf

/-- `DecodedSwf::decompress` of `src/decoded_swf.rs`.  The zlib and LZMA
algorithms are external collaborators of the repository and are not
modelled; a `DecodedSwf` is simply a byte source, so the decoded stream is
represented by the stream contents themselves (exact for `Uncompressed`,
and ranging over all possible decoder outputs as the input stream ranges
over all streams for the compressed signatures). -/
def DecodedSwf.decompress (sig : Signature) (s : ByteStream) : Outcome ByteStream :=
  .ok s

/-- `SwfHeaders::read_from` with the concrete decompression step. -/
def read_from (file : ByteStream) : Outcome (SwfHeaders × ByteStream) :=
  read_from_decomp DecodedSwf.decompress file

/-- The MSB-first value of a list of bits, as described by the spec: each
consecutive bit goes into progressively lower-order positions, the first
bit being the most significant. -/
def msb_first_value (bits : List Nat) : Nat :=
  bits.foldl (fun acc b => 2 * acc + b) 0

/-- The bits of a buffer scanned in order from `start_bit` to `end_bit`. -/
def bits_scanned (bytes : List Nat) (start_bit end_bit : Nat) : List Nat :=
  (List.range (end_bit - start_bit)).map (fun j => get_x_bit bytes (start_bit + j))

/-! ### Bit-level lemmas -/

theorem get_x_bit_le_one (bytes : List Nat) (bit : Nat) : get_x_bit bytes bit ≤ 1 :=
  Nat.and_le_right

theorem msb_fold_lt (bits : List Nat) (hb : ∀ b ∈ bits, b ≤ 1) :
    ∀ acc, List.foldl (fun a b => 2 * a + b) acc bits < (acc + 1) * 2 ^ bits.length := by
  induction bits with
  | nil => intro acc; simp
  | cons b bs ih =>
    intro acc
    have hb1 : b ≤ 1 := hb b (List.mem_cons_self b bs)
    have htail : ∀ x ∈ bs, x ≤ 1 := fun x hx => hb x (List.mem_cons_of_mem b hx)
    have h1 := ih htail (2 * acc + b)
    have h2 : (2 * acc + b + 1) * 2 ^ bs.length ≤ ((acc + 1) * 2) * 2 ^ bs.length := by
      have : 2 * acc + b + 1 ≤ (acc + 1) * 2 := by omega
      exact Nat.mul_le_mul_right _ this
    calc List.foldl (fun a b => 2 * a + b) acc (b :: bs)
        = List.foldl (fun a b => 2 * a + b) (2 * acc + b) bs := rfl
      _ < (2 * acc + b + 1) * 2 ^ bs.length := h1
      _ ≤ ((acc + 1) * 2) * 2 ^ bs.length := h2
      _ = (acc + 1) * 2 ^ (b :: bs).length := by
          simp [List.length_cons]; ring

theorem msb_first_value_lt (bits : List Nat) (hb : ∀ b ∈ bits, b ≤ 1) :
    msb_first_value bits < 2 ^ bits.length := by
  have := msb_fold_lt bits hb 0
  simpa [msb_first_value] using this

theorem msb_first_value_append_one (l : List Nat) (x : Nat) :
    msb_first_value (l ++ [x]) = 2 * msb_first_value l + x := by
  simp [msb_first_value, List.foldl_append]

theorem bit_partial (bytes : List Nat) (s L : Nat) :
    ∀ j, j ≤ L →
      (List.range j).foldl
          (fun result k => result ||| (get_x_bit bytes (s + k) <<< (L - (k + 1)))) 0
        = msb_first_value ((List.range j).map (fun k => get_x_bit bytes (s + k)))
            * 2 ^ (L - j) := by
  intro j
  induction j with
  | zero => intro _; simp [msb_first_value]
  | succ j ih =>
    intro hj
    have hj' : j ≤ L := Nat.le_of_succ_le hj
    rw [List.range_succ, List.foldl_append, List.map_append, ih hj']
    simp only [List.map_cons, List.map_nil, List.foldl_cons, List.foldl_nil]
    rw [msb_first_value_append_one]
    have hm : L - j = (L - (j + 1)) + 1 := by omega
    set m := L - (j + 1) with hmdef
    set A := msb_first_value ((List.range j).map (fun k => get_x_bit bytes (s + k))) with hA
    set g := get_x_bit bytes (s + j) with hg'
    rw [hm, Nat.shiftLeft_eq]
    have hg : g ≤ 1 := get_x_bit_le_one bytes (s + j)
    have hlt : g * 2 ^ m < 2 ^ (m + 1) := by
      have h1 : g * 2 ^ m ≤ 1 * 2 ^ m := Nat.mul_le_mul_right _ hg
      have h2 : (2 : Nat) ^ (m + 1) = 2 * 2 ^ m := by ring
      have h3 : 0 < (2 : Nat) ^ m := Nat.pos_pow_of_pos m (by omega)
      omega
    have hkey := Nat.mul_add_lt_is_or hlt A
    rw [Nat.mul_comm A (2 ^ (m + 1)), ← hkey]
    ring

theorem bit_loop_eq_msb (bytes : List Nat) (s L : Nat) :
    bit_loop bytes s L
      = msb_first_value ((List.range L).map (fun k => get_x_bit bytes (s + k))) := by
  have := bit_partial bytes s L L le_rfl
  simpa [bit_loop] using this

theorem bit_loop_lt (bytes : List Nat) (s L : Nat) : bit_loop bytes s L < 2 ^ L := by
  rw [bit_loop_eq_msb]
  have hb : ∀ b ∈ (List.range L).map (fun k => get_x_bit bytes (s + k)), b ≤ 1 := by
    intro b hbmem
    obtain ⟨k, _, rfl⟩ := List.mem_map.mp hbmem
    exact get_x_bit_le_one bytes (s + k)
  have := msb_first_value_lt _ hb
  simpa using this

theorem bit_asserts_true_iff (bytes : List Nat) (s e : Nat) :
    bit_asserts bytes s e = true ↔
      e / 8 ≤ bytes.length ∧ e - s < 32 ∧ s ≤ e ∧
        ∀ j < e - s, (s + j) / 8 < bytes.length := by
  simp only [bit_asserts, Bool.and_eq_true, List.all_eq_true, List.mem_range,
    decide_eq_true_eq]
  tauto

theorem bit_asserts_of_ceil (bytes : List Nat) (s e : Nat)
    (h1 : s ≤ e) (h2 : e - s < 32) (h3 : (e + 7) / 8 ≤ bytes.length) :
    bit_asserts bytes s e = true := by
  rw [bit_asserts_true_iff]
  refine ⟨by omega, h2, h1, ?_⟩
  intro j hj
  omega

/-! ### Claims about the bit-range extractor -/

/-- Claim C5: for every byte buffer and bit range with
`end_bit - start_bit < 32` and `ceil(end_bit/8) <= length(buffer)`
(the subtraction being the mathematical one, hence `start_bit ≤ end_bit`),
`get_bit_range` completes without any assertion failure: it returns the
loop value, so both top-level asserts and every `get_x_bit` assert hold and
every byte index accessed is within the buffer. -/
theorem get_bit_range_no_assert (bytes : List Nat) (s e : Nat)
    (h1 : s ≤ e) (h2 : e - s < 32) (h3 : (e + 7) / 8 ≤ bytes.length) :
    get_bit_range bytes s e = some (bit_loop bytes s (e - s)) := by
  unfold get_bit_range
  rw [if_pos (bit_asserts_of_ceil bytes s e h1 h2 h3)]

/-- Witness for C5 at a concrete input. -/
theorem get_bit_range_no_assert_witness :
    (0 ≤ 8 ∧ 8 - 0 < 32 ∧ (8 + 7) / 8 ≤ List.length ([204] : List Nat)) ∧
      get_bit_range ([204] : List Nat) 0 8 = some (bit_loop ([204] : List Nat) 0 8) :=
  ⟨by decide,
    get_bit_range_no_assert ([204] : List Nat) 0 8 (by decide) (by decide) (by decide)⟩

/-- Claim C4, counterexample: under the claim's floor-division precondition
`end_bit / 8 <= buffer length` (here buffer `[0]` of length 1 with range
`[2,12)`, so `12/8 = 1 ≤ 1` and `12-2 = 10 < 32`), `get_bit_range` does not
return a value: the `get_x_bit` assertion fires at bit 8. -/
theorem get_bit_range_floor_precond_cex :
    (12 - 2 < 32 ∧ 12 / 8 ≤ List.length ([0] : List Nat)) ∧
      get_bit_range ([0] : List Nat) 2 12 = none := by decide

/-- Claim C4 (amended: the floor-division side condition `end_bit/8 ≤ length`
is strengthened to the ceiling division `ceil(end_bit/8) ≤ length`, for
ranges with `start_bit ≤ end_bit`): `get_bit_range` returns a value below
`2^(end_bit - start_bit)`, that value is the MSB-first assembly of the bits
scanned in order from `start_bit` to `end_bit` (first bit read is the most
significant), and a repeated call returns the same value. -/
theorem get_bit_range_value_spec (bytes : List Nat) (s e : Nat)
    (h1 : s ≤ e) (h2 : e - s < 32) (h3 : (e + 7) / 8 ≤ bytes.length) :
    get_bit_range bytes s e = some (msb_first_value (bits_scanned bytes s e)) ∧
      msb_first_value (bits_scanned bytes s e) < 2 ^ (e - s) ∧
      get_bit_range bytes s e = get_bit_range bytes s e := by
  have hval : get_bit_range bytes s e = some (bit_loop bytes s (e - s)) := by
    unfold get_bit_range
    rw [if_pos (bit_asserts_of_ceil bytes s e h1 h2 h3)]
  have hmsb : bit_loop bytes s (e - s) = msb_first_value (bits_scanned bytes s e) :=
    bit_loop_eq_msb bytes s (e - s)
  refine ⟨by rw [hval, hmsb], ?_, rfl⟩
  rw [← hmsb]
  exact bit_loop_lt bytes s (e - s)

/-- Witness for the amended C4 at the spec's literal vector. -/
theorem get_bit_range_value_spec_witness :
    (2 ≤ 12 ∧ 12 - 2 < 32 ∧ (12 + 7) / 8 ≤ List.length ([44, 114] : List Nat)) ∧
      (get_bit_range ([44, 114] : List Nat) 2 12
          = some (msb_first_value (bits_scanned ([44, 114] : List Nat) 2 12)) ∧
        msb_first_value (bits_scanned ([44, 114] : List Nat) 2 12) < 2 ^ (12 - 2) ∧
        get_bit_range ([44, 114] : List Nat) 2 12
          = get_bit_range ([44, 114] : List Nat) 2 12) :=
  ⟨by decide,
    get_bit_range_value_spec ([44, 114] : List Nat) 2 12 (by decide) (by decide) (by decide)⟩

/-- Claim C6: `get_bit_range` on the buffer `[0b0010_1100, 0b0111_0010]`
with range `[2,12)` returns `0b1011000111`, decimal 711. -/
theorem get_bit_range_literal_vector :
    get_bit_range ([0b00101100, 0b01110010] : List Nat) 2 12 = some 711 := by decide

/-- Claim C7: for every header record, `dimensions()` is
`dimensions_twips()` divided by 20 component-wise, truncating. -/
theorem dimensions_eq_twips_div20 (h : SwfHeaders) :
    h.dimensions = (h.dimensions_twips.1 / 20, h.dimensions_twips.2 / 20) := rfl

/-! ### Reader inversion lemmas -/

theorem read_u8_ne_panicked (s : ByteStream) : read_u8 s ≠ .panicked := by
  cases s with
  | nil => simp [read_u8]
  | cons hd t =>
    cases hd with
    | good b => simp [read_u8]
    | bad => simp [read_u8]

theorem read_u8_ok_lt {s : ByteStream} {b : Nat} {s' : ByteStream}
    (h : read_u8 s = .ok (b, s')) : b < 256 := by
  cases s with
  | nil => simp [read_u8] at h
  | cons hd t =>
    cases hd with
    | good x =>
      simp [read_u8] at h
      omega
    | bad => simp [read_u8] at h

theorem read_bytes_ne_panicked : ∀ (n : Nat) (s : ByteStream), read_bytes s n ≠ .panicked := by
  intro n
  induction n with
  | zero => intro s; simp [read_bytes]
  | succ n ih =>
    intro s h
    simp only [read_bytes] at h
    cases h8 : read_u8 s with
    | err e => rw [h8] at h; simp at h
    | panicked => exact read_u8_ne_panicked s h8
    | ok p =>
      obtain ⟨b, s1⟩ := p
      rw [h8] at h
      simp only [] at h
      cases hb : read_bytes s1 n with
      | err e => rw [hb] at h; simp at h
      | panicked => exact ih s1 hb
      | ok q =>
        obtain ⟨bs, s2⟩ := q
        rw [hb] at h
        simp at h

theorem read_bytes_length : ∀ (n : Nat) (s : ByteStream) (bs : List Nat) (s' : ByteStream),
    read_bytes s n = .ok (bs, s') → bs.length = n := by
  intro n
  induction n with
  | zero =>
    intro s bs s' h
    simp only [read_bytes, Outcome.ok.injEq, Prod.mk.injEq] at h
    rw [← h.1]
    rfl
  | succ n ih =>
    intro s bs s' h
    simp only [read_bytes] at h
    cases h8 : read_u8 s with
    | err e => rw [h8] at h; simp at h
    | panicked => rw [h8] at h; simp at h
    | ok p =>
      obtain ⟨b, s1⟩ := p
      rw [h8] at h
      simp only [] at h
      cases hb : read_bytes s1 n with
      | err e => rw [hb] at h; simp at h
      | panicked => rw [hb] at h; simp at h
      | ok q =>
        obtain ⟨bs1, s2⟩ := q
        rw [hb] at h
        simp only [Outcome.ok.injEq, Prod.mk.injEq] at h
        rw [← h.1]
        simp [ih s1 bs1 s2 hb]

theorem parse_rect_ne_panicked (file : ByteStream) : parse_rect file ≠ .panicked := by
  intro h
  simp only [parse_rect] at h
  cases h8 : read_u8 file with
  | err e => rw [h8] at h; simp at h
  | panicked => exact read_u8_ne_panicked file h8
  | ok p =>
    obtain ⟨first_byte, s1⟩ := p
    rw [h8] at h
    simp only at h
    set n := (first_byte >>> 3) &&& 31 with hn
    have hn31 : n ≤ 31 := Nat.and_le_right
    cases hb : read_bytes s1 (rect_nbytes n) with
    | err e => rw [hb] at h; simp at h
    | panicked => exact read_bytes_ne_panicked _ _ hb
    | ok q =>
      obtain ⟨rest_bytes, s2⟩ := q
      rw [hb] at h
      have hlen : rest_bytes.length = rect_nbytes n := read_bytes_length _ _ _ _ hb
      have hw : bit_asserts (first_byte :: rest_bytes) (5 + n) (5 + n * 2) = true := by
        rw [bit_asserts_true_iff]
        simp only [List.length_cons, hlen, rect_nbytes]
        refine ⟨by omega, by omega, by omega, ?_⟩
        intro j hj
        omega
      have hh : bit_asserts (first_byte :: rest_bytes) (5 + n * 3) (5 + n * 4) = true := by
        rw [bit_asserts_true_iff]
        simp only [List.length_cons, hlen, rect_nbytes]
        refine ⟨by omega, by omega, by omega, ?_⟩
        intro j hj
        omega
      simp only [get_bit_range, hw, hh, if_true] at h
      simp at h

/-! ### Claims about the stage-bounds record -/

/-- Claim C1, refutation of the Design-Notes half: there is no `nbits` value
below 32 for which the floor division of `src/lib.rs` line 189 under-reads,
i.e. for which the first byte plus `(5 + nbits*4)/8` further bytes fail to
cover all `5 + 4*nbits` bits of the record. -/
theorem rect_underread_refuted :
    ¬ ∃ n : Nat, n < 32 ∧ 8 * (1 + rect_nbytes n) < 5 + 4 * n := by decide

/-- Claim C1 (amended: the coverage half holds and the Design-Notes defect
does not exist): for every `nbits` in `[0,31]` the consumed bytes cover all
`5 + 4*nbits` bits of the record, and consequently `parse_rect` never hits
an assertion failure — both `get_bit_range` calls stay within the assembled
buffer for every input stream. -/
theorem rect_record_coverage :
    (∀ n : Nat, n ≤ 31 → 5 + 4 * n ≤ 8 * (1 + rect_nbytes n)) ∧
      ∀ s : ByteStream, parse_rect s ≠ .panicked :=
  ⟨fun n _ => by unfold rect_nbytes; omega, parse_rect_ne_panicked⟩

/-- Witness for the amended C1 at `nbits = 3` and a concrete stream. -/
theorem rect_record_coverage_witness :
    (3 ≤ 31 ∧ 5 + 4 * 3 ≤ 8 * (1 + rect_nbytes 3)) ∧
      parse_rect [] ≠ .panicked :=
  ⟨⟨by decide, rect_record_coverage.1 3 (by decide)⟩, rect_record_coverage.2 []⟩

/-- Claim C9, counterexample: no input whose stage-bounds record encodes
`nbits = 2` can parse to a width of 40, since the second 2-bit field is
always below 4; the scenario in the spec is unrealisable. -/
theorem nbits_two_width_forty_impossible :
    ¬ ∃ (b0 : Nat) (rest : ByteStream) (ht : Nat) (s2 : ByteStream),
        b0 < 256 ∧ (b0 >>> 3) &&& 31 = 2 ∧
          parse_rect (.good b0 :: rest) = .ok ((40, ht), s2) := by
  rintro ⟨b0, rest, ht, s2, hb, hn, hp⟩
  simp only [parse_rect, read_u8] at hp
  rw [Nat.mod_eq_of_lt hb, hn] at hp
  norm_num [rect_nbytes] at hp
  cases hrb : read_bytes rest 1 with
  | err e => rw [hrb] at hp; simp at hp
  | panicked => exact read_bytes_ne_panicked _ _ hrb
  | ok q =>
    obtain ⟨bs, s3⟩ := q
    rw [hrb] at hp
    simp only [] at hp
    have hlen : bs.length = 1 := read_bytes_length _ _ _ _ hrb
    cases bs with
    | nil => simp at hlen
    | cons x tl =>
      cases tl with
      | cons y tl2 => simp at hlen
      | nil =>
        have hw : get_bit_range (b0 :: x :: []) 7 9 = some (bit_loop (b0 :: x :: []) 7 2) := by
          unfold get_bit_range
          rw [if_pos]
          rw [bit_asserts_true_iff]
          refine ⟨by norm_num, by norm_num, by norm_num, ?_⟩
          intro j hj
          simp only [List.length_cons, List.length_nil]
          omega
        have hh : get_bit_range (b0 :: x :: []) 11 13
            = some (bit_loop (b0 :: x :: []) 11 2) := by
          unfold get_bit_range
          rw [if_pos]
          rw [bit_asserts_true_iff]
          refine ⟨by norm_num, by norm_num, by norm_num, ?_⟩
          intro j hj
          simp only [List.length_cons, List.length_nil]
          omega
        rw [hw] at hp
        simp only [] at hp
        rw [hh] at hp
        simp only [Outcome.ok.injEq, Prod.mk.injEq] at hp
        have hbound := bit_loop_lt (b0 :: x :: []) 7 2
        have h40 : bit_loop (b0 :: x :: []) 7 2 = 40 := hp.1.1
        norm_num at hbound
        omega

/-- Claim C9 (amended: the stage-bounds record must encode `nbits = 6`, the
minimal field width that can hold the raw twip values 40 and 60; `nbits = 2`
cannot represent them): the minimal synthetic uncompressed input with
version 9, file length 100, a stage-bounds record with `nbits = 6`,
width 40 and height 60 twips, frame-rate bytes (0, 24) and frame count 5
parses to exactly the stated header record, with `dimensions_twips`
(40, 60) and `dimensions` (2, 3). -/
theorem end_to_end_vector :
    read_from [SrcByte.good 70, .good 87, .good 83, .good 9, .good 100, .good 0, .good 0,
        .good 0, .good 48, .good 20, .good 1, .good 224, .good 0, .good 24, .good 5, .good 0]
      = .ok (⟨.Uncompressed, 9, 100, 40, 60, 24, 5⟩, []) ∧
      SwfHeaders.dimensions_twips ⟨.Uncompressed, 9, 100, 40, 60, 24, 5⟩ = (40, 60) ∧
      SwfHeaders.dimensions ⟨.Uncompressed, 9, 100, 40, 60, 24, 5⟩ = (2, 3) := by
  decide

/-! ### Claims about the frame-rate abort -/

/-- Claim C2: whenever the decoded stream parses its stage-bounds record and
then delivers two frame-rate bytes whose low byte is nonzero, the field
extraction phase deterministically panics (it aborts; it neither returns an
error value nor a header record with the fraction dropped), and so does
`read_from` on any uncompressed input reaching that stream. -/
theorem fractional_frame_rate_panics
    (d : ByteStream) (wh : Nat × Nat) (d1 : ByteStream) (lo : Nat) (d2 : ByteStream)
    (up : Nat) (d3 : ByteStream)
    (hrect : parse_rect d = .ok (wh, d1))
    (hlo : read_u8 d1 = .ok (lo, d2))
    (hup : read_u8 d2 = .ok (up, d3))
    (hnz : lo ≠ 0) :
    (∀ sig v fl, read_fields sig v fl d = .panicked) ∧
      read_from (.good 70 :: .good 87 :: .good 83 :: .good 9 :: .good 100 ::
        .good 0 :: .good 0 :: .good 0 :: d) = .panicked := by
  obtain ⟨w, ht⟩ := wh
  have hf : ∀ sig v fl, read_fields sig v fl d = .panicked := by
    intro sig v fl
    unfold read_fields
    rw [hrect]
    simp only [] 
    rw [hlo]
    simp only []
    rw [hup]
    simp only []
    rw [if_pos hnz]
  refine ⟨hf, ?_⟩
  have hred : read_from (.good 70 :: .good 87 :: .good 83 :: .good 9 :: .good 100 ::
      .good 0 :: .good 0 :: .good 0 :: d) = read_fields .Uncompressed 9 100 d := by
    simp [read_from, read_from_decomp, read_u8, sig_of_byte, read_after_magic,
      read_u32_le, DecodedSwf.decompress]
  rw [hred]
  exact hf .Uncompressed 9 100

/-- Witness for C2 at a concrete stream with frame-rate bytes (12, 24). -/
theorem fractional_frame_rate_panics_witness :
    (parse_rect [SrcByte.good 0, SrcByte.good 12, SrcByte.good 24]
        = .ok ((0, 0), [SrcByte.good 12, SrcByte.good 24]) ∧ (12 : Nat) ≠ 0) ∧
      read_fields .Uncompressed 9 100 [SrcByte.good 0, SrcByte.good 12, SrcByte.good 24]
        = .panicked ∧
      read_from (.good 70 :: .good 87 :: .good 83 :: .good 9 :: .good 100 ::
          .good 0 :: .good 0 :: .good 0 ::
          [SrcByte.good 0, SrcByte.good 12, SrcByte.good 24]) = .panicked := by
  refine ⟨⟨by decide, by decide⟩, ?_, ?_⟩
  · exact (fractional_frame_rate_panics [SrcByte.good 0, SrcByte.good 12, SrcByte.good 24]
      (0, 0) [SrcByte.good 12, SrcByte.good 24] 12 [SrcByte.good 24] 24 []
      (by decide) (by decide) (by decide) (by decide)).1 .Uncompressed 9 100
  · exact (fractional_frame_rate_panics [SrcByte.good 0, SrcByte.good 12, SrcByte.good 24]
      (0, 0) [SrcByte.good 12, SrcByte.good 24] 12 [SrcByte.good 24] 24 []
      (by decide) (by decide) (by decide) (by decide)).2

/-! ### Claims about signature dispatch -/

theorem sig_of_byte_cases {b : Nat} {sig : Signature} (h : sig_of_byte b = some sig) :
    b = 70 ∨ b = 67 ∨ b = 90 := by
  unfold sig_of_byte at h
  split_ifs at h with h1 h2 h3
  · exact Or.inl h1
  · exact Or.inr (Or.inl h2)
  · exact Or.inr (Or.inr h3)

/-- Claim C3: the first byte maps 'F', 'C', 'Z' to the three signatures; with
a valid first byte and magic bytes 0x57 0x53 parsing proceeds past the
signature and magic validation to the field-extraction tail; with any other
first byte, or a valid first byte and wrong magic, `read_from` returns the
format-mismatch error `NotSwf` (an error return, so no panic from later
stages). -/
theorem signature_magic_dispatch :
    (sig_of_byte 70 = some .Uncompressed ∧ sig_of_byte 67 = some .ZlibCompressed ∧
        sig_of_byte 90 = some .LzmaCompressed) ∧
      (∀ (decomp : Signature → ByteStream → Outcome ByteStream) (b : Nat) (sig : Signature)
          (rest : ByteStream), sig_of_byte b = some sig →
          read_from_decomp decomp (.good b :: .good 87 :: .good 83 :: rest)
            = read_after_magic decomp sig rest) ∧
      (∀ (decomp : Signature → ByteStream → Outcome ByteStream) (b : Nat) (rest : ByteStream),
          b < 256 → sig_of_byte b = none →
          read_from_decomp decomp (.good b :: rest) = .err .NotSwf) ∧
      (∀ (decomp : Signature → ByteStream → Outcome ByteStream) (b m1 m2 : Nat)
          (sig : Signature) (rest : ByteStream),
          sig_of_byte b = some sig → m1 < 256 → m2 < 256 → ¬(m1 = 87 ∧ m2 = 83) →
          read_from_decomp decomp (.good b :: .good m1 :: .good m2 :: rest) = .err .NotSwf) := by
  refine ⟨by decide, ?_, ?_, ?_⟩
  · intro decomp b sig rest hsig
    have hb : b % 256 = b := by
      have := sig_of_byte_cases hsig
      omega
    simp [read_from_decomp, read_u8, hb, hsig]
  · intro decomp b rest hlt hnone
    simp [read_from_decomp, read_u8, Nat.mod_eq_of_lt hlt, hnone]
  · intro decomp b m1 m2 sig rest hsig h1 h2 hneq
    have hb : b % 256 = b := by
      have := sig_of_byte_cases hsig
      omega
    simp [read_from_decomp, read_u8, hb, hsig, Nat.mod_eq_of_lt h1, Nat.mod_eq_of_lt h2, hneq]

/-- Witness for C3: a zlib-signed input proceeds to field extraction, an
invalid first byte and a wrong magic both return `NotSwf`. -/
theorem signature_magic_dispatch_witness :
    read_from_decomp DecodedSwf.decompress [SrcByte.good 67, .good 87, .good 83]
        = read_after_magic DecodedSwf.decompress .ZlibCompressed [] ∧
      read_from_decomp DecodedSwf.decompress [SrcByte.good 0] = .err .NotSwf ∧
      read_from_decomp DecodedSwf.decompress [SrcByte.good 70, .good 0, .good 83]
        = .err .NotSwf :=
  ⟨signature_magic_dispatch.2.1 DecodedSwf.decompress 67 .ZlibCompressed [] (by decide),
   signature_magic_dispatch.2.2.1 DecodedSwf.decompress 0 [] (by decide) (by decide),
   signature_magic_dispatch.2.2.2 DecodedSwf.decompress 70 0 83 .Uncompressed []
     (by decide) (by decide) (by decide) (by decide)⟩

/-! ### Claims about the stored frame rate -/

theorem read_fields_frame_rate_le (sig : Signature) (v fl : Nat) (d : ByteStream)
    (h : SwfHeaders) (rest : ByteStream)
    (hok : read_fields sig v fl d = .ok (h, rest)) : h.frame_rate ≤ 255 := by
  unfold read_fields at hok
  cases hp : parse_rect d with
  | err e => rw [hp] at hok; simp at hok
  | panicked => rw [hp] at hok; simp at hok
  | ok q =>
    obtain ⟨⟨w, ht⟩, d1⟩ := q
    rw [hp] at hok
    simp only [] at hok
    cases h1 : read_u8 d1 with
    | err e => rw [h1] at hok; simp at hok
    | panicked => rw [h1] at hok; simp at hok
    | ok p1 =>
      obtain ⟨lo, d2⟩ := p1
      rw [h1] at hok
      simp only [] at hok
      cases h2 : read_u8 d2 with
      | err e => rw [h2] at hok; simp at hok
      | panicked => rw [h2] at hok; simp at hok
      | ok p2 =>
        obtain ⟨up, d3⟩ := p2
        rw [h2] at hok
        simp only [] at hok
        by_cases hz : lo ≠ 0
        · rw [if_pos hz] at hok; simp at hok
        · rw [if_neg hz] at hok
          cases h3 : read_u16_le d3 with
          | err e => rw [h3] at hok; simp at hok
          | panicked => rw [h3] at hok; simp at hok
          | ok p3 =>
            obtain ⟨fc, d4⟩ := p3
            rw [h3] at hok
            simp only [Outcome.ok.injEq, Prod.mk.injEq] at hok
            have hup := read_u8_ok_lt h2
            rw [← hok.1]
            simpa using Nat.lt_succ_iff.mp hup

theorem read_after_magic_frame_rate_le (decomp : Signature → ByteStream → Outcome ByteStream)
    (sig : Signature) (s : ByteStream) (h : SwfHeaders) (rest : ByteStream)
    (hok : read_after_magic decomp sig s = .ok (h, rest)) : h.frame_rate ≤ 255 := by
  unfold read_after_magic at hok
  cases h1 : read_u8 s with
  | err e => rw [h1] at hok; simp at hok
  | panicked => rw [h1] at hok; simp at hok
  | ok p1 =>
    obtain ⟨v, s1⟩ := p1
    rw [h1] at hok
    simp only [] at hok
    cases h2 : read_u32_le s1 with
    | err e => rw [h2] at hok; simp at hok
    | panicked => rw [h2] at hok; simp at hok
    | ok p2 =>
      obtain ⟨fl, s2⟩ := p2
      rw [h2] at hok
      simp only [] at hok
      cases h3 : decomp sig s2 with
      | err e => rw [h3] at hok; simp at hok
      | panicked => rw [h3] at hok; simp at hok
      | ok decoded =>
        rw [h3] at hok
        simp only [] at hok
        exact read_fields_frame_rate_le sig v fl decoded h rest hok

/-- Claim C10: for every decompression step and every successful parse, the
stored frame rate is at most 255 — it is the single high frame-rate byte
widened, despite the 16-bit return type of the accessor. -/
theorem frame_rate_le_255 :
    ∀ (decomp : Signature → ByteStream → Outcome ByteStream) (file : ByteStream)
      (h : SwfHeaders) (rest : ByteStream),
      read_from_decomp decomp file = .ok (h, rest) → h.frame_rate ≤ 255 := by
  intro decomp file h rest hok
  unfold read_from_decomp at hok
  cases h1 : read_u8 file with
  | err e => rw [h1] at hok; simp at hok
  | panicked => rw [h1] at hok; simp at hok
  | ok p1 =>
    obtain ⟨b, s1⟩ := p1
    rw [h1] at hok
    simp only [] at hok
    cases h2 : sig_of_byte b with
    | none => rw [h2] at hok; simp at hok
    | some sig =>
      rw [h2] at hok
      simp only [] at hok
      cases h3 : read_u8 s1 with
      | err e => rw [h3] at hok; simp at hok
      | panicked => rw [h3] at hok; simp at hok
      | ok p2 =>
        obtain ⟨m1, s2⟩ := p2
        rw [h3] at hok
        simp only [] at hok
        cases h4 : read_u8 s2 with
        | err e => rw [h4] at hok; simp at hok
        | panicked => rw [h4] at hok; simp at hok
        | ok p3 =>
          obtain ⟨m2, s3⟩ := p3
          rw [h4] at hok
          simp only [] at hok
          by_cases hm : m1 = 87 ∧ m2 = 83
          · rw [if_pos hm] at hok
            exact read_after_magic_frame_rate_le decomp sig s3 h rest hok
          · rw [if_neg hm] at hok; simp at hok

/-- Witness for C10 at the concrete end-to-end input. -/
theorem frame_rate_le_255_witness :
    SwfHeaders.frame_rate ⟨.Uncompressed, 9, 100, 40, 60, 24, 5⟩ ≤ 255 :=
  frame_rate_le_255 DecodedSwf.decompress
    [SrcByte.good 70, .good 87, .good 83, .good 9, .good 100, .good 0, .good 0,
      .good 0, .good 48, .good 20, .good 1, .good 224, .good 0, .good 24, .good 5, .good 0]
    ⟨.Uncompressed, 9, 100, 40, 60, 24, 5⟩ [] (by decide)

/-! ### Claims about the error taxonomy -/

/-- A stream whose source never reports an underlying I/O failure. -/
def NoBad (s : ByteStream) : Prop := ∀ x ∈ s, x ≠ SrcByte.bad

theorem noBad_map_good (bs : List Nat) : NoBad (bs.map SrcByte.good) := by
  intro x hx
  obtain ⟨b, _, rfl⟩ := List.mem_map.mp hx
  simp

theorem read_u8_err_noBad {s : ByteStream} {e : Error} (hs : NoBad s)
    (h : read_u8 s = .err e) : e = .NotSwf := by
  cases s with
  | nil =>
    simp only [read_u8, Outcome.err.injEq] at h
    exact h.symm
  | cons hd t =>
    cases hd with
    | good b => simp [read_u8] at h
    | bad => exact absurd rfl (hs .bad (List.mem_cons_self _ _))

theorem read_u8_ok_noBad {s : ByteStream} {b : Nat} {s' : ByteStream} (hs : NoBad s)
    (h : read_u8 s = .ok (b, s')) : NoBad s' := by
  cases s with
  | nil => simp [read_u8] at h
  | cons hd t =>
    cases hd with
    | good x =>
      simp only [read_u8, Outcome.ok.injEq, Prod.mk.injEq] at h
      obtain ⟨h1, h2⟩ := h
      subst h2
      intro y hy
      exact hs y (List.mem_cons_of_mem _ hy)
    | bad => exact absurd rfl (hs .bad (List.mem_cons_self _ _))

theorem read_u16_err_noBad {s : ByteStream} {e : Error} (hs : NoBad s)
    (h : read_u16_le s = .err e) : e = .NotSwf := by
  unfold read_u16_le at h
  cases h1 : read_u8 s with
  | err e1 =>
    rw [h1] at h
    simp only [Outcome.err.injEq] at h
    subst h
    exact read_u8_err_noBad hs h1
  | panicked => exact absurd h1 (read_u8_ne_panicked s)
  | ok p =>
    obtain ⟨lo, s1⟩ := p
    rw [h1] at h
    simp only [] at h
    have hs1 := read_u8_ok_noBad hs h1
    cases h2 : read_u8 s1 with
    | err e2 =>
      rw [h2] at h
      simp only [Outcome.err.injEq] at h
      subst h
      exact read_u8_err_noBad hs1 h2
    | panicked => exact absurd h2 (read_u8_ne_panicked s1)
    | ok q =>
      obtain ⟨hi, s2⟩ := q
      rw [h2] at h
      simp at h

theorem read_u16_ok_noBad {s : ByteStream} {v : Nat} {s' : ByteStream} (hs : NoBad s)
    (h : read_u16_le s = .ok (v, s')) : NoBad s' := by
  unfold read_u16_le at h
  cases h1 : read_u8 s with
  | err e1 => rw [h1] at h; simp at h
  | panicked => exact absurd h1 (read_u8_ne_panicked s)
  | ok p =>
    obtain ⟨lo, s1⟩ := p
    rw [h1] at h
    simp only [] at h
    have hs1 := read_u8_ok_noBad hs h1
    cases h2 : read_u8 s1 with
    | err e2 => rw [h2] at h; simp at h
    | panicked => exact absurd h2 (read_u8_ne_panicked s1)
    | ok q =>
      obtain ⟨hi, s2⟩ := q
      rw [h2] at h
      simp only [Outcome.ok.injEq, Prod.mk.injEq] at h
      rw [← h.2]
      exact read_u8_ok_noBad hs1 h2

theorem read_u32_err_noBad {s : ByteStream} {e : Error} (hs : NoBad s)
    (h : read_u32_le s = .err e) : e = .NotSwf := by
  unfold read_u32_le at h
  cases h1 : read_u8 s with
  | err e1 =>
    rw [h1] at h
    simp only [Outcome.err.injEq] at h
    subst h
    exact read_u8_err_noBad hs h1
  | panicked => exact absurd h1 (read_u8_ne_panicked s)
  | ok p1 =>
    obtain ⟨b0, s1⟩ := p1
    rw [h1] at h
    simp only [] at h
    have hs1 := read_u8_ok_noBad hs h1
    cases h2 : read_u8 s1 with
    | err e2 =>
      rw [h2] at h
      simp only [Outcome.err.injEq] at h
      subst h
      exact read_u8_err_noBad hs1 h2
    | panicked => exact absurd h2 (read_u8_ne_panicked s1)
    | ok p2 =>
      obtain ⟨b1, s2⟩ := p2
      rw [h2] at h
      simp only [] at h
      have hs2 := read_u8_ok_noBad hs1 h2
      cases h3 : read_u8 s2 with
      | err e3 =>
        rw [h3] at h
        simp only [Outcome.err.injEq] at h
        subst h
        exact read_u8_err_noBad hs2 h3
      | panicked => exact absurd h3 (read_u8_ne_panicked s2)
      | ok p3 =>
        obtain ⟨b2, s3⟩ := p3
        rw [h3] at h
        simp only [] at h
        have hs3 := read_u8_ok_noBad hs2 h3
        cases h4 : read_u8 s3 with
        | err e4 =>
          rw [h4] at h
          simp only [Outcome.err.injEq] at h
          subst h
          exact read_u8_err_noBad hs3 h4
        | panicked => exact absurd h4 (read_u8_ne_panicked s3)
        | ok p4 =>
          obtain ⟨b3, s4⟩ := p4
          rw [h4] at h
          simp at h

theorem read_u32_ok_noBad {s : ByteStream} {v : Nat} {s' : ByteStream} (hs : NoBad s)
    (h : read_u32_le s = .ok (v, s')) : NoBad s' := by
  unfold read_u32_le at h
  cases h1 : read_u8 s with
  | err e1 => rw [h1] at h; simp at h
  | panicked => exact absurd h1 (read_u8_ne_panicked s)
  | ok p1 =>
    obtain ⟨b0, s1⟩ := p1
    rw [h1] at h
    simp only [] at h
    have hs1 := read_u8_ok_noBad hs h1
    cases h2 : read_u8 s1 with
    | err e2 => rw [h2] at h; simp at h
    | panicked => exact absurd h2 (read_u8_ne_panicked s1)
    | ok p2 =>
      obtain ⟨b1, s2⟩ := p2
      rw [h2] at h
      simp only [] at h
      have hs2 := read_u8_ok_noBad hs1 h2
      cases h3 : read_u8 s2 with
      | err e3 => rw [h3] at h; simp at h
      | panicked => exact absurd h3 (read_u8_ne_panicked s2)
      | ok p3 =>
        obtain ⟨b2, s3⟩ := p3
        rw [h3] at h
        simp only [] at h
        have hs3 := read_u8_ok_noBad hs2 h3
        cases h4 : read_u8 s3 with
        | err e4 => rw [h4] at h; simp at h
        | panicked => exact absurd h4 (read_u8_ne_panicked s3)
        | ok p4 =>
          obtain ⟨b3, s4⟩ := p4
          rw [h4] at h
          simp only [Outcome.ok.injEq, Prod.mk.injEq] at h
          rw [← h.2]
          exact read_u8_ok_noBad hs3 h4

theorem read_bytes_err_noBad : ∀ (n : Nat) (s : ByteStream), NoBad s →
    ∀ e : Error, read_bytes s n = .err e → e = .NotSwf := by
  intro n
  induction n with
  | zero => intro s _ e h; simp [read_bytes] at h
  | succ n ih =>
    intro s hs e h
    simp only [read_bytes] at h
    cases h1 : read_u8 s with
    | err e1 =>
      rw [h1] at h
      simp only [Outcome.err.injEq] at h
      subst h
      exact read_u8_err_noBad hs h1
    | panicked => exact absurd h1 (read_u8_ne_panicked s)
    | ok p =>
      obtain ⟨b, s1⟩ := p
      rw [h1] at h
      simp only [] at h
      have hs1 := read_u8_ok_noBad hs h1
      cases h2 : read_bytes s1 n with
      | err e2 =>
        rw [h2] at h
        simp only [Outcome.err.injEq] at h
        subst h
        exact ih s1 hs1 e2 h2
      | panicked => exact absurd h2 (read_bytes_ne_panicked n s1)
      | ok q =>
        obtain ⟨bs, s2⟩ := q
        rw [h2] at h
        simp at h

theorem read_bytes_ok_noBad : ∀ (n : Nat) (s : ByteStream), NoBad s →
    ∀ (bs : List Nat) (s' : ByteStream), read_bytes s n = .ok (bs, s') → NoBad s' := by
  intro n
  induction n with
  | zero =>
    intro s hs bs s' h
    simp only [read_bytes, Outcome.ok.injEq, Prod.mk.injEq] at h
    rw [← h.2]
    exact hs
  | succ n ih =>
    intro s hs bs s' h
    simp only [read_bytes] at h
    cases h1 : read_u8 s with
    | err e1 => rw [h1] at h; simp at h
    | panicked => exact absurd h1 (read_u8_ne_panicked s)
    | ok p =>
      obtain ⟨b, s1⟩ := p
      rw [h1] at h
      simp only [] at h
      have hs1 := read_u8_ok_noBad hs h1
      cases h2 : read_bytes s1 n with
      | err e2 => rw [h2] at h; simp at h
      | panicked => exact absurd h2 (read_bytes_ne_panicked n s1)
      | ok q =>
        obtain ⟨bs1, s2⟩ := q
        rw [h2] at h
        simp only [Outcome.ok.injEq, Prod.mk.injEq] at h
        rw [← h.2]
        exact ih s1 hs1 bs1 s2 h2

theorem parse_rect_err_noBad {s : ByteStream} {e : Error} (hs : NoBad s)
    (h : parse_rect s = .err e) : e = .NotSwf := by
  simp only [parse_rect] at h
  cases h1 : read_u8 s with
  | err e1 =>
    rw [h1] at h
    simp only [Outcome.err.injEq] at h
    subst h
    exact read_u8_err_noBad hs h1
  | panicked => exact absurd h1 (read_u8_ne_panicked s)
  | ok p =>
    obtain ⟨b, s1⟩ := p
    rw [h1] at h
    simp only [] at h
    have hs1 := read_u8_ok_noBad hs h1
    cases h2 : read_bytes s1 (rect_nbytes ((b >>> 3) &&& 31)) with
    | err e2 =>
      rw [h2] at h
      simp only [Outcome.err.injEq] at h
      subst h
      exact read_bytes_err_noBad _ s1 hs1 e2 h2
    | panicked => exact absurd h2 (read_bytes_ne_panicked _ s1)
    | ok q =>
      obtain ⟨bs, s2⟩ := q
      rw [h2] at h
      simp only [] at h
      cases hg1 : get_bit_range (b :: bs) (5 + ((b >>> 3) &&& 31)) (5 + ((b >>> 3) &&& 31) * 2) with
      | none => rw [hg1] at h; simp at h
      | some w =>
        rw [hg1] at h
        simp only [] at h
        cases hg2 : get_bit_range (b :: bs) (5 + ((b >>> 3) &&& 31) * 3)
            (5 + ((b >>> 3) &&& 31) * 4) with
        | none => rw [hg2] at h; simp at h
        | some ht => rw [hg2] at h; simp at h

theorem parse_rect_ok_noBad {s : ByteStream} {wh : (Nat × Nat)} {s' : ByteStream}
    (hs : NoBad s) (h : parse_rect s = .ok (wh, s')) : NoBad s' := by
  simp only [parse_rect] at h
  cases h1 : read_u8 s with
  | err e1 => rw [h1] at h; simp at h
  | panicked => exact absurd h1 (read_u8_ne_panicked s)
  | ok p =>
    obtain ⟨b, s1⟩ := p
    rw [h1] at h
    simp only [] at h
    have hs1 := read_u8_ok_noBad hs h1
    cases h2 : read_bytes s1 (rect_nbytes ((b >>> 3) &&& 31)) with
    | err e2 => rw [h2] at h; simp at h
    | panicked => exact absurd h2 (read_bytes_ne_panicked _ s1)
    | ok q =>
      obtain ⟨bs, s2⟩ := q
      rw [h2] at h
      simp only [] at h
      have hs2 := read_bytes_ok_noBad _ s1 hs1 bs s2 h2
      cases hg1 : get_bit_range (b :: bs) (5 + ((b >>> 3) &&& 31)) (5 + ((b >>> 3) &&& 31) * 2) with
      | none => rw [hg1] at h; simp at h
      | some w =>
        rw [hg1] at h
        simp only [] at h
        cases hg2 : get_bit_range (b :: bs) (5 + ((b >>> 3) &&& 31) * 3)
            (5 + ((b >>> 3) &&& 31) * 4) with
        | none => rw [hg2] at h; simp at h
        | some ht =>
          rw [hg2] at h
          simp only [Outcome.ok.injEq, Prod.mk.injEq] at h
          rw [← h.2]
          exact hs2

theorem read_fields_err_noBad {sig : Signature} {v fl : Nat} {d : ByteStream} {e : Error}
    (hd : NoBad d) (h : read_fields sig v fl d = .err e) : e = .NotSwf := by
  unfold read_fields at h
  cases hp : parse_rect d with
  | err e1 =>
    rw [hp] at h
    simp only [Outcome.err.injEq] at h
    subst h
    exact parse_rect_err_noBad hd hp
  | panicked => exact absurd hp (parse_rect_ne_panicked d)
  | ok q =>
    obtain ⟨⟨w, ht⟩, d1⟩ := q
    rw [hp] at h
    simp only [] at h
    have hd1 : NoBad d1 := parse_rect_ok_noBad hd hp
    cases h1 : read_u8 d1 with
    | err e1 =>
      rw [h1] at h
      simp only [Outcome.err.injEq] at h
      subst h
      exact read_u8_err_noBad hd1 h1
    | panicked => exact absurd h1 (read_u8_ne_panicked d1)
    | ok p1 =>
      obtain ⟨lo, d2⟩ := p1
      rw [h1] at h
      simp only [] at h
      have hd2 := read_u8_ok_noBad hd1 h1
      cases h2 : read_u8 d2 with
      | err e2 =>
        rw [h2] at h
        simp only [Outcome.err.injEq] at h
        subst h
        exact read_u8_err_noBad hd2 h2
      | panicked => exact absurd h2 (read_u8_ne_panicked d2)
      | ok p2 =>
        obtain ⟨up, d3⟩ := p2
        rw [h2] at h
        simp only [] at h
        have hd3 := read_u8_ok_noBad hd2 h2
        by_cases hz : lo ≠ 0
        · rw [if_pos hz] at h; simp at h
        · rw [if_neg hz] at h
          cases h3 : read_u16_le d3 with
          | err e3 =>
            rw [h3] at h
            simp only [Outcome.err.injEq] at h
            subst h
            exact read_u16_err_noBad hd3 h3
          | panicked =>
            rw [h3] at h
            exfalso
            unfold read_u16_le at h3
            cases h4 : read_u8 d3 with
            | err e4 => rw [h4] at h3; simp at h3
            | panicked => exact absurd h4 (read_u8_ne_panicked d3)
            | ok p4 =>
              obtain ⟨x, d4⟩ := p4
              rw [h4] at h3
              simp only [] at h3
              cases h5 : read_u8 d4 with
              | err e5 => rw [h5] at h3; simp at h3
              | panicked => exact absurd h5 (read_u8_ne_panicked d4)
              | ok p5 =>
                obtain ⟨y, d5⟩ := p5
                rw [h5] at h3
                simp at h3
          | ok p3 =>
            obtain ⟨fc, d4⟩ := p3
            rw [h3] at h
            simp at h

theorem read_u32_ne_panicked (s : ByteStream) : read_u32_le s ≠ .panicked := by
  intro h
  unfold read_u32_le at h
  cases h1 : read_u8 s with
  | err e => rw [h1] at h; simp at h
  | panicked => exact read_u8_ne_panicked s h1
  | ok p1 =>
    obtain ⟨b0, s1⟩ := p1
    rw [h1] at h
    simp only [] at h
    cases h2 : read_u8 s1 with
    | err e => rw [h2] at h; simp at h
    | panicked => exact read_u8_ne_panicked s1 h2
    | ok p2 =>
      obtain ⟨b1, s2⟩ := p2
      rw [h2] at h
      simp only [] at h
      cases h3 : read_u8 s2 with
      | err e => rw [h3] at h; simp at h
      | panicked => exact read_u8_ne_panicked s2 h3
      | ok p3 =>
        obtain ⟨b2, s3⟩ := p3
        rw [h3] at h
        simp only [] at h
        cases h4 : read_u8 s3 with
        | err e => rw [h4] at h; simp at h
        | panicked => exact read_u8_ne_panicked s3 h4
        | ok p4 =>
          obtain ⟨b3, s4⟩ := p4
          rw [h4] at h
          simp at h

theorem read_after_magic_err_noBad {sig : Signature} {s : ByteStream} {e : Error}
    (hs : NoBad s) (h : read_after_magic DecodedSwf.decompress sig s = .err e) :
    e = .NotSwf := by
  unfold read_after_magic at h
  cases h1 : read_u8 s with
  | err e1 =>
    rw [h1] at h
    simp only [Outcome.err.injEq] at h
    subst h
    exact read_u8_err_noBad hs h1
  | panicked => exact absurd h1 (read_u8_ne_panicked s)
  | ok p1 =>
    obtain ⟨v, s1⟩ := p1
    rw [h1] at h
    simp only [] at h
    have hs1 := read_u8_ok_noBad hs h1
    cases h2 : read_u32_le s1 with
    | err e2 =>
      rw [h2] at h
      simp only [Outcome.err.injEq] at h
      subst h
      exact read_u32_err_noBad hs1 h2
    | panicked => exact absurd h2 (read_u32_ne_panicked s1)
    | ok p2 =>
      obtain ⟨fl, s2⟩ := p2
      rw [h2] at h
      simp only [DecodedSwf.decompress] at h
      exact read_fields_err_noBad (read_u32_ok_noBad hs1 h2) h

theorem read_from_err_noBad {file : ByteStream} {e : Error}
    (hf : NoBad file) (h : read_from file = .err e) : e = .NotSwf := by
  unfold read_from read_from_decomp at h
  cases h1 : read_u8 file with
  | err e1 =>
    rw [h1] at h
    simp only [Outcome.err.injEq] at h
    subst h
    exact read_u8_err_noBad hf h1
  | panicked => exact absurd h1 (read_u8_ne_panicked file)
  | ok p1 =>
    obtain ⟨b, s1⟩ := p1
    rw [h1] at h
    simp only [] at h
    have hs1 := read_u8_ok_noBad hf h1
    cases h2 : sig_of_byte b with
    | none =>
      rw [h2] at h
      simp only [Outcome.err.injEq] at h
      exact h.symm
    | some sig =>
      rw [h2] at h
      simp only [] at h
      cases h3 : read_u8 s1 with
      | err e3 =>
        rw [h3] at h
        simp only [Outcome.err.injEq] at h
        subst h
        exact read_u8_err_noBad hs1 h3
      | panicked => exact absurd h3 (read_u8_ne_panicked s1)
      | ok p2 =>
        obtain ⟨m1, s2⟩ := p2
        rw [h3] at h
        simp only [] at h
        have hs2 := read_u8_ok_noBad hs1 h3
        cases h4 : read_u8 s2 with
        | err e4 =>
          rw [h4] at h
          simp only [Outcome.err.injEq] at h
          subst h
          exact read_u8_err_noBad hs2 h4
        | panicked => exact absurd h4 (read_u8_ne_panicked s2)
        | ok p3 =>
          obtain ⟨m2, s3⟩ := p3
          rw [h4] at h
          simp only [] at h
          have hs3 := read_u8_ok_noBad hs2 h4
          by_cases hm : m1 = 87 ∧ m2 = 83
          · rw [if_pos hm] at h
            exact read_after_magic_err_noBad hs3 h
          · rw [if_neg hm] at h
            simp only [Outcome.err.injEq] at h
            exact h.symm

/-- Claim C8: on any input whose source reports no I/O failure, every error
`read_from` returns is the format-mismatch error `NotSwf` — in particular a
short read (end of data) at any step is folded into `NotSwf`, the same
variant used for signature and magic failures, never a distinct truncation
error; an underlying I/O failure is instead propagated verbatim as
`IoError`. -/
theorem short_read_not_swf :
    (∀ (bs : List Nat) (e : Error), read_from (bs.map SrcByte.good) = .err e → e = .NotSwf) ∧
      ∀ s : ByteStream, read_from (.bad :: s) = .err .IoError := by
  constructor
  · intro bs e h
    exact read_from_err_noBad (noBad_map_good bs) h
  · intro s
    rfl

/-- Witness for C8: an input truncated inside the magic bytes yields
`NotSwf`, and an immediate I/O failure yields `IoError`. -/
theorem short_read_not_swf_witness :
    read_from (([70, 87] : List Nat).map SrcByte.good) = .err .NotSwf ∧
      Error.NotSwf = Error.NotSwf ∧
      read_from [SrcByte.bad] = .err .IoError :=
  ⟨by decide, short_read_not_swf.1 [70, 87] .NotSwf (by decide), short_read_not_swf.2 []⟩
